import Mathlib

/-
Verification of the fountain-transport core of the `cube` repository
(QR-code file transport: packet framing, adaptive payload sizing,
erasure-code receiver loop).

Bytes are modelled as natural numbers; machine-integer casts from the
source are rendered as explicit `% 2^w` operations.  External
collaborators (SHA-256, zlib, base-64, the RaptorQ codec, the QR fit
predicate) are universally quantified function parameters, following the
collaborator contracts of the specification.
-/

namespace Cube

/-- Error type covering the error values produced by the transport core
(`anyhow` errors in the source, one constructor per distinct failure). -/
inductive Err where
  | headerTooShort
  | unsupportedVersion (v : Nat)
  | packedTooShort
  | missingNameTerminator
  | malformedName
  | checksumMismatch
  | tooLarge (minSize : Nat)
  | decompressFailed
  | noChunks
  | insufficientPackets
deriving DecidableEq, Repr

/-- Packet header carried by every erasure packet: `version`, transfer
length `total` (T), `index` (ESI) and the codec symbol size
`packetSize`.  Field set as constructed in `prepare_chunks`
(src/src/encode.rs) and consumed in src/src/decode.rs. -/
structure ChunkHeader where
  version : Nat
  total : Nat
  index : Nat
  packetSize : Nat
deriving DecidableEq, Repr

/-- An erasure packet: header plus the serialized encoding symbol. -/
structure Chunk where
  header : ChunkHeader
  data : List Nat
deriving DecidableEq, Repr

/-- Modelled from the spec: the fixed packet header length (11 bytes,
spec section 4.4); the `HEADER_SIZE` constant imported by
src/src/encode.rs is absent from the stale src/src/chunk.rs. -/
def HEADER_SIZE : Nat := 11

/-- Big-endian serialization of a 32-bit value (4 bytes). -/
def byte32 (n : Nat) : List Nat :=
  [n / 2 ^ 24 % 256, n / 2 ^ 16 % 256, n / 2 ^ 8 % 256, n % 256]

/-- Big-endian serialization of a 16-bit value (2 bytes). -/
def byte16 (n : Nat) : List Nat :=
  [n / 2 ^ 8 % 256, n % 256]

/-- Big-endian reading of 4 bytes. -/
def read32 (b0 b1 b2 b3 : Nat) : Nat :=
  ((b0 * 256 + b1) * 256 + b2) * 256 + b3

/-- Modelled from the spec: `Chunk::to_bytes` serialization,
`version(1) || T(4, BE) || ESI(4, BE) || packet_size(2, BE) || body`
(spec sections 3 and 4.4); the binary serializer used by
src/src/encode.rs is absent from the stale src/src/chunk.rs. -/
def Chunk.to_bytes (c : Chunk) : List Nat :=
  [c.header.version % 256] ++ byte32 c.header.total ++ byte32 c.header.index
    ++ byte16 c.header.packetSize ++ c.data

/-- Modelled from the spec: `Chunk::from_bytes` parsing (spec section
4.4): input shorter than 1 byte fails `HeaderTooShort`; version other
than 1 fails `UnsupportedVersion`; input shorter than 11 bytes fails
`HeaderTooShort`; the body is everything after the 11-byte header.  The
binary parser used by src/src/decode.rs is absent from the stale
src/src/chunk.rs. -/
def Chunk.from_bytes (bs : List Nat) : Except Err Chunk :=
  match bs with
  | [] => .error .headerTooShort
  | v :: rest =>
    if v ≠ 1 then .error (.unsupportedVersion v)
    else
      match rest with
      | t0 :: t1 :: t2 :: t3 :: e0 :: e1 :: e2 :: e3 :: p0 :: p1 :: body =>
        .ok ⟨⟨1, read32 t0 t1 t2 t3, read32 e0 e1 e2 e3, p0 * 256 + p1⟩, body⟩
      | _ => .error .headerTooShort

/-- A header is valid when its version is 1 and its fields fit the wire
widths (u32 transfer length, u32 ESI, u16 packet size). -/
def validHeader (h : ChunkHeader) : Prop :=
  h.version = 1 ∧ h.total < 2 ^ 32 ∧ h.index < 2 ^ 32 ∧ h.packetSize < 2 ^ 16

instance (h : ChunkHeader) : Decidable (validHeader h) := by
  unfold validHeader; infer_instance

/-- Continuation byte of a UTF-8 sequence: `0x80 ≤ c ≤ 0xBF`. -/
def utf8Cont (c : Nat) : Bool := 0x80 ≤ c && c ≤ 0xBF

/-- Allowed range of the first continuation byte after a three-byte
lead `b` (excludes overlong encodings after `0xE0` and surrogates after
`0xED`). -/
def utf8Cont3 (b c : Nat) : Bool :=
  if b = 0xE0 then 0xA0 ≤ c && c ≤ 0xBF
  else if b = 0xED then 0x80 ≤ c && c ≤ 0x9F
  else utf8Cont c

/-- Allowed range of the first continuation byte after a four-byte lead
`b` (excludes overlong encodings after `0xF0` and values above U+10FFFF
after `0xF4`). -/
def utf8Cont4 (b c : Nat) : Bool :=
  if b = 0xF0 then 0x90 ≤ c && c ≤ 0xBF
  else if b = 0xF4 then 0x80 ≤ c && c ≤ 0x8F
  else utf8Cont c

/-- Whether a byte sequence is well-formed UTF-8. -/
def utf8Valid : List Nat → Bool
  | [] => true
  | b :: r =>
    if b ≤ 0x7F then utf8Valid r
    else if b < 0xC2 then false
    else if b ≤ 0xDF then
      match r with
      | c :: r2 => utf8Cont c && utf8Valid r2
      | [] => false
    else if b ≤ 0xEF then
      match r with
      | c1 :: c2 :: r2 => utf8Cont3 b c1 && utf8Cont c2 && utf8Valid r2
      | _ => false
    else if b ≤ 0xF4 then
      match r with
      | c1 :: c2 :: c3 :: r2 =>
        utf8Cont4 b c1 && utf8Cont c2 && utf8Cont c3 && utf8Valid r2
      | _ => false
    else false

/-- Split a byte sequence at its first `0x00` byte: returns the bytes
before the separator and the bytes after it. -/
def splitAtSep : List Nat → Option (List Nat × List Nat)
  | [] => none
  | b :: r =>
    if b = 0 then some ([], r)
    else (splitAtSep r).map (fun q => (b :: q.1, q.2))

/-- Modelled from the spec: `pack_data(B, name)` framing (spec section
4.1): `CHK(8) || NAME || 0x00 || B` with `CHK` the first 8 bytes of
SHA-256 over `B` and `NAME` the filename bytes with `0x00` removed.
SHA-256 is the external collaborator `sha`; `pack_data` itself is
absent from the stale src/src/chunk.rs though imported by
src/src/encode.rs. -/
def pack_data (sha : List Nat → List Nat) (data name : List Nat) : List Nat :=
  (sha data).take 8 ++ name.filter (fun b => !(b == 0)) ++ 0 :: data

/-- Modelled from the spec: `unpack_data(P)` (spec section 4.1):
require at least 10 bytes, split on the first `0x00` at index 8 or
later, validate the name as UTF-8, recompute the first 8 bytes of
SHA-256 over the content and compare with `CHK`.  `unpack_data` is
absent from the stale src/src/chunk.rs though imported by
src/src/decode.rs. -/
def unpack_data (sha : List Nat → List Nat) (p : List Nat) :
    Except Err (List Nat × List Nat) :=
  if p.length < 10 then .error .packedTooShort
  else
    match splitAtSep (p.drop 8) with
    | none => .error .missingNameTerminator
    | some (name, content) =>
      if utf8Valid name then
        if (sha content).take 8 = p.take 8 then .ok (name, content)
        else .error .checksumMismatch
      else .error .malformedName

/-- Largest even number at most `n` (`packet_size - packet_size % 2`
in `prepare_chunks`, src/src/encode.rs). -/
def even_floor (n : Nat) : Nat := n - n % 2

/-- Ceiling division on naturals (the `f64` ceiling divisions of
`prepare_chunks` rendered exactly). -/
def ceilDiv (a b : Nat) : Nat := (a + b - 1) / b

/-- The symbol size selected by the sizing loop for an accepted
envelope size `eff`: the requested size minus the 11-byte header, cast
to `u16`, floored to an even value (src/src/encode.rs lines 55-56). -/
def sel_packet_size (eff : Nat) : Nat := even_floor ((eff - HEADER_SIZE) % 2 ^ 16)

/-- The packet built for ESI `i` over compressed blob `C` with symbol
size `ps`: header fields as constructed in `prepare_chunks`
(src/src/encode.rs lines 71-79 and 93-103), body supplied by the
erasure-encoder collaborator `encPkt`. -/
def mkChunk (C : List Nat) (ps : Nat) (encPkt : List Nat → Nat → Nat → List Nat)
    (i : Nat) : Chunk :=
  ⟨⟨1, C.length % 2 ^ 32, i, ps⟩, encPkt C ps i⟩

/-- The first `total` packets of the erasure-encoder stream, as emitted
on the success path of `prepare_chunks` (spec section 4.3 contract for
the encoder collaborator: a deterministic unbounded packet sequence). -/
def mkChunks (C : List Nat) (ps : Nat) (encPkt : List Nat → Nat → Nat → List Nat)
    (total : Nat) : List Chunk :=
  (List.range total).map (mkChunk C ps encPkt)

/-- The adaptive sizing loop of `prepare_chunks` (src/src/encode.rs
lines 51-120), fuel-indexed: `none` means the given fuel was exhausted
before the loop returned.  `C` is the compressed blob, `fit` the
channel fit predicate (fallible, as in the source), `b64` the envelope
text encoder, `encPkt` the erasure-encoder collaborator, and the
redundancy factor is the exact rational `rNum / rDen`. -/
def prepare_chunks_loop (C : List Nat) (minSize step rNum rDen : Nat)
    (fit : List Nat → Except Err Bool) (b64 : List Nat → List Nat)
    (encPkt : List Nat → Nat → Nat → List Nat) :
    Nat → Nat → Option (Except Err (List Chunk × Nat))
  | 0, _ => none
  | fuel + 1, current =>
    if even_floor ((current - HEADER_SIZE) % 2 ^ 16) < 4 then
      if current ≤ minSize then some (.error (.tooLarge minSize))
      else
        prepare_chunks_loop C minSize step rNum rDen fit b64 encPkt fuel
          (max minSize (current - step))
    else
      match fit (b64 (Chunk.to_bytes
          (mkChunk C (even_floor ((current - HEADER_SIZE) % 2 ^ 16)) encPkt 0))) with
      | .error e => some (.error e)
      | .ok true =>
        some (.ok (mkChunks C (even_floor ((current - HEADER_SIZE) % 2 ^ 16)) encPkt
          (max (ceilDiv C.length (even_floor ((current - HEADER_SIZE) % 2 ^ 16)) + 2)
            (ceilDiv
              (ceilDiv C.length (even_floor ((current - HEADER_SIZE) % 2 ^ 16)) * rNum)
              rDen)), current))
      | .ok false =>
        if minSize < current then
          prepare_chunks_loop C minSize step rNum rDen fit b64 encPkt fuel
            (max minSize (current - step))
        else some (.error (.tooLarge minSize))

instance {ε α : Type} [DecidableEq ε] [DecidableEq α] : DecidableEq (Except ε α) :=
  fun a b =>
    match a, b with
    | .error e, .error f =>
      if h : e = f then isTrue (by rw [h]) else isFalse (by simp [h])
    | .error _, .ok _ => isFalse (by simp)
    | .ok _, .error _ => isFalse (by simp)
    | .ok x, .ok y =>
      if h : x = y then isTrue (by rw [h]) else isFalse (by simp [h])

/-- Receiver session state of `decode_from_gif` (src/src/decode.rs
lines 71-134): the decoder configuration (`T`, `packet_size`) once
instantiated, the set of ESIs inserted into the dedup map, the packets
fed to the erasure decoder in order, the decoder output truncated to
the transfer length, the final decompressed-and-unpacked result, and
whether the loop has returned. -/
structure RecvState where
  config : Option (Nat × Nat)
  seen : List Nat
  fed : List Chunk
  recovered : Option (List Nat)
  output : Option (Except Err (List Nat × List Nat))
  done : Bool
deriving DecidableEq, Repr

/-- The receiver state before any frame is processed. -/
def initState : RecvState := ⟨none, [], [], none, none, false⟩

/-- One iteration of the `decode_from_gif` frame loop (src/src/decode.rs
lines 75-134) on the byte payload of one frame: parse the packet (skip
on failure), instantiate the decoder from the first parsed packet,
deduplicate by ESI, feed the packet, and on decoder success truncate
the recovered block to the packet's transfer length and hand it to
decompression and unpacking.  The erasure decoder is the collaborator
`oracle` (a function of the session configuration and the packets fed),
zlib inflation is `dcmp`, SHA-256 is `sha`. -/
def processFrame (oracle : Nat × Nat → List Chunk → Option (List Nat))
    (dcmp : List Nat → Except Err (List Nat)) (sha : List Nat → List Nat)
    (s : RecvState) (frame : List Nat) : RecvState :=
  if s.done then s
  else
    match Chunk.from_bytes frame with
    | .error _ => s
    | .ok c =>
      if c.header.index ∈ s.seen then
        { s with config := some (s.config.getD (c.header.total, c.header.packetSize)) }
      else
        match oracle (s.config.getD (c.header.total, c.header.packetSize))
            (s.fed ++ [c]) with
        | none =>
          { s with
              config := some (s.config.getD (c.header.total, c.header.packetSize)),
              seen := c.header.index :: s.seen, fed := s.fed ++ [c] }
        | some b =>
          { s with
              config := some (s.config.getD (c.header.total, c.header.packetSize)),
              seen := c.header.index :: s.seen, fed := s.fed ++ [c],
              recovered := some (b.take c.header.total),
              output := some ((dcmp (b.take c.header.total)).bind (unpack_data sha)),
              done := true }

/-- The `decode_from_gif` frame loop over a whole frame sequence. -/
def runFrames (oracle : Nat × Nat → List Chunk → Option (List Nat))
    (dcmp : List Nat → Except Err (List Nat)) (sha : List Nat → List Nat)
    (s : RecvState) (frames : List (List Nat)) : RecvState :=
  frames.foldl (processFrame oracle dcmp sha) s

/-- The first frame payload that parses as a packet. -/
def firstParsed (frames : List (List Nat)) : Option Chunk :=
  frames.findSome? (fun f => (Chunk.from_bytes f).toOption)

/-- Feeding loop of `reconstruct_raptorq` (src/src/decode.rs lines
41-47): feed the chunks one by one until the decoder returns a block. -/
def feedUntil (oracle : Nat × Nat → List Chunk → Option (List Nat))
    (cfg : Nat × Nat) : List Chunk → List Chunk → Option (List Nat)
  | _, [] => none
  | fed, c :: rest =>
    match oracle cfg (fed ++ [c]) with
    | some b => some b
    | none => feedUntil oracle cfg (fed ++ [c]) rest

/-- `reconstruct_raptorq` (src/src/decode.rs lines 27-61): configure
the decoder from the first chunk's header, feed chunks until a block is
recovered, truncate it to the transfer length, then decompress and
unpack. -/
def reconstruct_raptorq (oracle : Nat × Nat → List Chunk → Option (List Nat))
    (dcmp : List Nat → Except Err (List Nat)) (sha : List Nat → List Nat)
    (chunks : List Chunk) : Except Err (List Nat × List Nat) :=
  match chunks with
  | [] => .error .noChunks
  | c0 :: rest =>
    match feedUntil oracle (c0.header.total, c0.header.packetSize) [] (c0 :: rest) with
    | some b => (dcmp (b.take c0.header.total)).bind (unpack_data sha)
    | none => .error .insufficientPackets

theorem read32_byte32 (n : Nat) (hn : n < 2 ^ 32) :
    read32 (n / 2 ^ 24 % 256) (n / 2 ^ 16 % 256) (n / 2 ^ 8 % 256) (n % 256) = n := by
  unfold read32
  omega

/-- C3: the packet header is exactly 11 bytes, big-endian fixed layout;
for every valid header, parsing its serialization returns the header
unchanged, consumes exactly 11 bytes, and the body is everything after
those 11 bytes. -/
theorem header_roundtrip (h : ChunkHeader) (body : List Nat) (hv : validHeader h) :
    Chunk.from_bytes (Chunk.to_bytes ⟨h, body⟩) = .ok ⟨h, body⟩ ∧
    (Chunk.to_bytes ⟨h, body⟩).length = HEADER_SIZE + body.length ∧
    (Chunk.to_bytes ⟨h, body⟩).drop HEADER_SIZE = body := by
  obtain ⟨ver, tot, idx, ps⟩ := h
  obtain ⟨hver, htot, hidx, hps⟩ := hv
  simp only at hver htot hidx hps
  subst hver
  refine ⟨?_, ?_, ?_⟩
  · unfold Chunk.to_bytes byte32 byte16
    unfold Chunk.from_bytes
    simp only [List.cons_append, List.nil_append]
    norm_num
    unfold read32
    omega
  · unfold Chunk.to_bytes byte32 byte16 HEADER_SIZE
    simp only [List.length_append, List.length_cons, List.length_nil]
  · unfold Chunk.to_bytes byte32 byte16 HEADER_SIZE
    simp

/-- C2: for every input byte sequence whose version byte is not 1,
packet parsing fails with `UnsupportedVersion`, and consequently the
receiver loop skips the frame without touching its state — in
particular a version-2 packet is never fed to the erasure decoder. -/
theorem version_gating (bs : List Nat) (v : Nat) (hv : bs.head? = some v)
    (hne : v ≠ 1) :
    Chunk.from_bytes bs = .error (.unsupportedVersion v) ∧
    ∀ oracle dcmp sha s, processFrame oracle dcmp sha s bs = s := by
  cases bs with
  | nil => simp at hv
  | cons b r =>
    simp only [List.head?_cons, Option.some.injEq] at hv
    subst hv
    have hparse : Chunk.from_bytes (b :: r) = .error (.unsupportedVersion b) := by
      unfold Chunk.from_bytes
      simp [hne]
    refine ⟨hparse, ?_⟩
    intro oracle dcmp sha s
    unfold processFrame
    rw [hparse]
    by_cases hd : s.done <;> simp [hd]

/-- C2 witness: a version-2 frame at a concrete input is rejected by
the parser and leaves a concrete receiver state unchanged. -/
theorem version_gating_witness :
    Chunk.from_bytes [2, 0, 0, 0, 5, 0, 0, 0, 0, 0, 4] =
      .error (.unsupportedVersion 2) ∧
    processFrame (fun _ _ => none) (fun _ => .error .decompressFailed)
      (fun _ => []) initState [2, 0, 0, 0, 5, 0, 0, 0, 0, 0, 4] = initState := by
  have h := version_gating [2, 0, 0, 0, 5, 0, 0, 0, 0, 0, 4] 2 rfl (by decide)
  exact ⟨h.1, h.2 _ _ _ _⟩

theorem splitAtSep_sep (name content : List Nat) (h : ∀ b ∈ name, b ≠ 0) :
    splitAtSep (name ++ 0 :: content) = some (name, content) := by
  induction name with
  | nil => simp [splitAtSep]
  | cons a t ih =>
    have ha : a ≠ 0 := h a (by simp)
    have ht : ∀ b ∈ t, b ≠ 0 := fun b hb => h b (by simp [hb])
    simp [splitAtSep, ha, ih ht]

/-- C8: the checksum attached during framing is the first 8 bytes of
SHA-256 over the raw file content alone (the filename does not enter
the hash), and unpacking accepts a packed blob exactly when the stored
checksum matches the hash of the content region — the filename plays no
role in verification. -/
theorem checksum_over_content_only (sha : List Nat → List Nat)
    (chk name content : List Nat) (hchk : chk.length = 8)
    (hname : ∀ b ∈ name, b ≠ 0) (hvalid : utf8Valid name = true)
    (hsize : 1 ≤ name.length + content.length) :
    (∀ d n, 8 ≤ (sha d).length →
      (pack_data sha d n).take 8 = (sha d).take 8) ∧
    (unpack_data sha (chk ++ (name ++ 0 :: content)) = .ok (name, content) ↔
      chk = (sha content).take 8) := by
  constructor
  · intro d n hlen
    unfold pack_data
    have h8 : (8 : Nat) ≤ ((sha d).take 8).length := by
      simp only [List.length_take]
      omega
    rw [List.append_assoc, List.take_append_of_le_length h8, List.take_take]
    norm_num
  · have hlen : ¬ (chk ++ (name ++ 0 :: content)).length < 10 := by
      simp only [List.length_append, List.length_cons, hchk]
      omega
    have hdrop : (chk ++ (name ++ 0 :: content)).drop 8 = name ++ 0 :: content := by
      rw [← hchk, List.drop_left]
    have htake : (chk ++ (name ++ 0 :: content)).take 8 = chk := by
      rw [← hchk, List.take_left]
    unfold unpack_data
    rw [if_neg hlen, hdrop, splitAtSep_sep name content hname, htake]
    simp only [hvalid, if_true]
    by_cases hc : (sha content).take 8 = chk
    · simp [hc, eq_comm]
    · simp [hc]
      intro hcc
      exact absurd hcc.symm hc

/-- C8 witness: the checksum equations at a concrete hash collaborator,
content and filename. -/
theorem checksum_over_content_only_witness :
    (pack_data (fun l => List.replicate 32 l.length) [5] [97]).take 8 =
      ((fun l : List Nat => List.replicate 32 l.length) [5]).take 8 ∧
    unpack_data (fun l => List.replicate 32 l.length)
      (List.replicate 8 1 ++ ([97] ++ 0 :: [5])) = .ok ([97], [5]) := by
  have h := checksum_over_content_only (fun l => List.replicate 32 l.length)
    (List.replicate 8 1) [97] [5] (by decide) (by decide) (by decide) (by decide)
  exact ⟨h.1 [5] [97] (by decide), h.2.mpr (by decide)⟩

theorem pf_done_id (o : Nat × Nat → List Chunk → Option (List Nat))
    (d : List Nat → Except Err (List Nat)) (h : List Nat → List Nat)
    (s : RecvState) (f : List Nat) (hd : s.done = true) :
    processFrame o d h s f = s := by
  unfold processFrame
  simp [hd]

theorem run_done_id (o : Nat × Nat → List Chunk → Option (List Nat))
    (d : List Nat → Except Err (List Nat)) (h : List Nat → List Nat)
    (s : RecvState) (fs : List (List Nat)) (hd : s.done = true) :
    runFrames o d h s fs = s := by
  induction fs with
  | nil => rfl
  | cons f rest ih =>
    unfold runFrames at ih ⊢
    rw [List.foldl_cons, pf_done_id o d h s f hd, ih]

theorem config_stable_pf (o : Nat × Nat → List Chunk → Option (List Nat))
    (d : List Nat → Except Err (List Nat)) (h : List Nat → List Nat)
    (s : RecvState) (f : List Nat) (cf : Nat × Nat) (hc : s.config = some cf) :
    (processFrame o d h s f).config = some cf := by
  unfold processFrame
  simp only [hc, Option.getD_some]
  split
  · exact hc
  · split
    · exact hc
    · split
      · rfl
      · split <;> rfl

theorem config_stable_run (o : Nat × Nat → List Chunk → Option (List Nat))
    (d : List Nat → Except Err (List Nat)) (h : List Nat → List Nat)
    (s : RecvState) (fs : List (List Nat)) (cf : Nat × Nat)
    (hc : s.config = some cf) :
    (runFrames o d h s fs).config = some cf := by
  induction fs generalizing s with
  | nil => exact hc
  | cons f rest ih =>
    unfold runFrames at ih ⊢
    rw [List.foldl_cons]
    exact ih (processFrame o d h s f) (config_stable_pf o d h s f cf hc)

theorem run_config_pins (o : Nat × Nat → List Chunk → Option (List Nat))
    (d : List Nat → Except Err (List Nat)) (h : List Nat → List Nat)
    (frames : List (List Nat)) :
    ∀ s : RecvState, s.config = none → s.done = false →
      (runFrames o d h s frames).config =
        (firstParsed frames).map (fun c => (c.header.total, c.header.packetSize)) := by
  induction frames with
  | nil =>
    intro s hc _
    simpa [runFrames, firstParsed] using hc
  | cons f rest ih =>
    intro s hc hd
    unfold runFrames
    rw [List.foldl_cons]
    cases hp : Chunk.from_bytes f with
    | error e =>
      have hpf : processFrame o d h s f = s := by
        unfold processFrame
        simp [hd, hp]
      have hfp : firstParsed (f :: rest) = firstParsed rest := by
        unfold firstParsed
        rw [List.findSome?_cons]
        simp [hp, Except.toOption]
      rw [hpf, hfp]
      exact ih s hc hd
    | ok c =>
      have hcfg : (processFrame o d h s f).config =
          some (c.header.total, c.header.packetSize) := by
        unfold processFrame
        simp only [hd, Bool.false_eq_true, if_false, hp, hc, Option.getD_none]
        split
        · rfl
        · split <;> rfl
      have hfp : firstParsed (f :: rest) = some c := by
        unfold firstParsed
        rw [List.findSome?_cons]
        simp [hp, Except.toOption]
      rw [hfp]
      exact config_stable_run o d h _ rest _ hcfg

/-- C1 (amended): the first successfully parsed packet instantiates the
decoder with that packet's `(T, packet_size)` and the session
configuration never changes afterwards; however, subsequent packets are
deduplicated only by ESI — any parsed packet with a fresh ESI is fed to
the decoder, whether or not its `(T, packet_size)` matches the session
configuration. -/
theorem session_config_pinned (o : Nat × Nat → List Chunk → Option (List Nat))
    (d : List Nat → Except Err (List Nat)) (h : List Nat → List Nat)
    (frames : List (List Nat)) :
    (runFrames o d h initState frames).config =
      (firstParsed frames).map (fun c => (c.header.total, c.header.packetSize)) ∧
    ∀ s f c, s.done = false → Chunk.from_bytes f = .ok c →
      c.header.index ∉ s.seen →
      (processFrame o d h s f).fed = s.fed ++ [c] := by
  constructor
  · exact run_config_pins o d h frames initState rfl rfl
  · intro s f c hd hp hm
    unfold processFrame
    simp only [hd, Bool.false_eq_true, if_false, hp, hm, if_neg]
    split <;> rfl

/-- C1 witness: the pinned configuration and the fresh-ESI feeding rule
at a concrete frame sequence and receiver state. -/
theorem session_config_pinned_witness :
    (runFrames (fun _ _ => none) (fun _ => .error .decompressFailed)
        (fun _ => []) initState [Chunk.to_bytes ⟨⟨1, 12, 0, 4⟩, []⟩]).config =
      (firstParsed [Chunk.to_bytes ⟨⟨1, 12, 0, 4⟩, []⟩]).map
        (fun c => (c.header.total, c.header.packetSize)) ∧
    (processFrame (fun _ _ => none) (fun _ => .error .decompressFailed)
        (fun _ => []) initState (Chunk.to_bytes ⟨⟨1, 12, 0, 4⟩, []⟩)).fed =
      initState.fed ++ [⟨⟨1, 12, 0, 4⟩, []⟩] := by
  have h := session_config_pinned (fun _ _ => none)
    (fun _ => .error .decompressFailed) (fun _ => [])
    [Chunk.to_bytes ⟨⟨1, 12, 0, 4⟩, []⟩]
  exact ⟨h.1, h.2 initState (Chunk.to_bytes ⟨⟨1, 12, 0, 4⟩, []⟩)
    ⟨⟨1, 12, 0, 4⟩, []⟩ rfl (by decide) (by decide)⟩

/-- C1 counterexample: after a first accepted packet with transfer
length 12, a second packet with a different transfer length 99 (and
packet size 6 instead of 4) is nevertheless fed to the decoder — it
appears in the fed sequence while the session configuration remains
`(12, 4)` — refuting the claim that a packet whose `(T, packet_size)`
differs from the session configuration is never fed to the decoder. -/
theorem session_pinning_counterexample :
    (runFrames (fun _ _ => none) (fun _ => .error .decompressFailed)
        (fun _ => []) initState
        [Chunk.to_bytes ⟨⟨1, 12, 0, 4⟩, []⟩,
         Chunk.to_bytes ⟨⟨1, 99, 1, 6⟩, []⟩]).fed =
      [⟨⟨1, 12, 0, 4⟩, []⟩, ⟨⟨1, 99, 1, 6⟩, []⟩] ∧
    (runFrames (fun _ _ => none) (fun _ => .error .decompressFailed)
        (fun _ => []) initState
        [Chunk.to_bytes ⟨⟨1, 12, 0, 4⟩, []⟩,
         Chunk.to_bytes ⟨⟨1, 99, 1, 6⟩, []⟩]).config = some (12, 4) ∧
    (99, 6) ≠ (12, 4) := by
  decide

theorem seen_subset_pf (o : Nat × Nat → List Chunk → Option (List Nat))
    (d : List Nat → Except Err (List Nat)) (h : List Nat → List Nat)
    (s : RecvState) (f : List Nat) : s.seen ⊆ (processFrame o d h s f).seen := by
  unfold processFrame
  split
  · exact List.Subset.refl _
  · split
    · exact List.Subset.refl _
    · split
      · exact List.Subset.refl _
      · split <;> exact List.subset_cons_self _ _

theorem seen_subset_run (o : Nat × Nat → List Chunk → Option (List Nat))
    (d : List Nat → Except Err (List Nat)) (h : List Nat → List Nat)
    (fs : List (List Nat)) :
    ∀ s : RecvState, s.seen ⊆ (runFrames o d h s fs).seen := by
  induction fs with
  | nil => intro s; exact List.Subset.refl _
  | cons f rest ih =>
    intro s x hx
    exact ih (processFrame o d h s f) (seen_subset_pf o d h s f hx)

theorem done_of_run_false (o : Nat × Nat → List Chunk → Option (List Nat))
    (d : List Nat → Except Err (List Nat)) (h : List Nat → List Nat)
    (s : RecvState) (fs : List (List Nat))
    (hd : (runFrames o d h s fs).done = false) : s.done = false := by
  cases hsd : s.done with
  | false => rfl
  | true =>
    rw [run_done_id o d h s fs hsd, hsd] at hd
    exact hd

theorem parsed_in_seen (o : Nat × Nat → List Chunk → Option (List Nat))
    (d : List Nat → Except Err (List Nat)) (h : List Nat → List Nat)
    (fs : List (List Nat)) :
    ∀ s : RecvState, (runFrames o d h s fs).done = false →
      ∀ f ∈ fs, ∀ c : Chunk, Chunk.from_bytes f = .ok c →
        c.header.index ∈ (runFrames o d h s fs).seen := by
  induction fs with
  | nil =>
    intro s _ f hf
    exact absurd hf (List.not_mem_nil f)
  | cons g rest ih =>
    intro s hdone f hf c hp
    have hstep : runFrames o d h s (g :: rest) =
        runFrames o d h (processFrame o d h s g) rest := rfl
    rw [hstep] at hdone ⊢
    rcases List.mem_cons.mp hf with hfg | hfr
    · subst hfg
      have hsd : s.done = false := by
        have h1 := done_of_run_false o d h _ rest hdone
        cases hsd : s.done with
        | false => rfl
        | true => rw [pf_done_id o d h s f hsd, hsd] at h1; exact h1
      have hin : c.header.index ∈ (processFrame o d h s f).seen := by
        unfold processFrame
        simp only [hsd, Bool.false_eq_true, if_false, hp]
        split
        · next hmem => exact hmem
        · split <;> exact List.mem_cons_self _ _
      exact seen_subset_run o d h rest _ hin
    · exact ih _ hdone f hfr c hp

theorem pf_mem_id (o : Nat × Nat → List Chunk → Option (List Nat))
    (d : List Nat → Except Err (List Nat)) (h : List Nat → List Nat)
    (s : RecvState) (f : List Nat) (c : Chunk) (cf : Nat × Nat)
    (hd : s.done = false) (hp : Chunk.from_bytes f = .ok c)
    (hm : c.header.index ∈ s.seen) (hc : s.config = some cf) :
    processFrame o d h s f = s := by
  obtain ⟨sc, ss, sf, sr, so, sd⟩ := s
  simp only at hd hm hc
  subst hd hc
  unfold processFrame
  simp [hp, hm]

theorem foldl_fixed (g : RecvState → List Nat → RecvState) (S : RecvState)
    (fs : List (List Nat)) (h : ∀ f ∈ fs, g S f = S) : fs.foldl g S = S := by
  induction fs with
  | nil => rfl
  | cons f rest ih =>
    rw [List.foldl_cons, h f (by simp)]
    exact ih (fun x hx => h x (by simp [hx]))

theorem runFrames_append (o : Nat × Nat → List Chunk → Option (List Nat))
    (d : List Nat → Except Err (List Nat)) (h : List Nat → List Nat)
    (s : RecvState) (l1 l2 : List (List Nat)) :
    runFrames o d h s (l1 ++ l2) = runFrames o d h (runFrames o d h s l1) l2 := by
  unfold runFrames
  rw [List.foldl_append]

theorem run_fixed (o : Nat × Nat → List Chunk → Option (List Nat))
    (d : List Nat → Except Err (List Nat)) (h : List Nat → List Nat)
    (S : RecvState) (fs : List (List Nat))
    (hfix : ∀ f ∈ fs, processFrame o d h S f = S) : runFrames o d h S fs = S :=
  foldl_fixed _ S fs hfix

theorem pf_invariant (o : Nat × Nat → List Chunk → Option (List Nat))
    (d : List Nat → Except Err (List Nat)) (h : List Nat → List Nat)
    (s : RecvState) (f : List Nat) (h1 : s.seen.Nodup)
    (h2 : s.fed.map (fun c => c.header.index) = s.seen.reverse)
    (h3 : s.config = none → s.seen = []) :
    (processFrame o d h s f).seen.Nodup ∧
    (processFrame o d h s f).fed.map (fun c => c.header.index) =
      (processFrame o d h s f).seen.reverse ∧
    ((processFrame o d h s f).config = none → (processFrame o d h s f).seen = []) := by
  unfold processFrame
  split
  · exact ⟨h1, h2, h3⟩
  · split
    · exact ⟨h1, h2, h3⟩
    · rename_i c heq
      split
      · exact ⟨h1, h2, fun hn => absurd hn (by simp)⟩
      · rename_i hmem
        have hcons : (s.fed ++ [c]).map (fun ch => ch.header.index) =
            (c.header.index :: s.seen).reverse := by
          rw [List.map_append, h2, List.reverse_cons]
          rfl
        split
        · exact ⟨List.nodup_cons.mpr ⟨hmem, h1⟩, hcons, fun hn => absurd hn (by simp)⟩
        · exact ⟨List.nodup_cons.mpr ⟨hmem, h1⟩, hcons, fun hn => absurd hn (by simp)⟩

theorem recv_invariant (o : Nat × Nat → List Chunk → Option (List Nat))
    (d : List Nat → Except Err (List Nat)) (h : List Nat → List Nat)
    (fs : List (List Nat)) :
    ∀ s : RecvState, s.seen.Nodup →
      s.fed.map (fun c => c.header.index) = s.seen.reverse →
      (s.config = none → s.seen = []) →
      ((runFrames o d h s fs).seen.Nodup ∧
       (runFrames o d h s fs).fed.map (fun c => c.header.index) =
         (runFrames o d h s fs).seen.reverse ∧
       ((runFrames o d h s fs).config = none → (runFrames o d h s fs).seen = [])) := by
  induction fs with
  | nil => intro s h1 h2 h3; exact ⟨h1, h2, h3⟩
  | cons f rest ih =>
    intro s h1 h2 h3
    have hstep := pf_invariant o d h s f h1 h2 h3
    exact ih (processFrame o d h s f) hstep.1 hstep.2.1 hstep.2.2

theorem run_dup_absorb (o : Nat × Nat → List Chunk → Option (List Nat))
    (d : List Nat → Except Err (List Nat)) (h : List Nat → List Nat)
    (fs : List (List Nat)) :
    runFrames o d h initState (fs ++ fs) = runFrames o d h initState fs := by
  rw [runFrames_append]
  apply run_fixed
  intro f hf
  by_cases hd : (runFrames o d h initState fs).done = true
  · exact pf_done_id o d h _ f hd
  · have hd' : (runFrames o d h initState fs).done = false := by
      simpa using hd
    cases hp : Chunk.from_bytes f with
    | error e =>
      unfold processFrame
      simp [hd', hp]
    | ok c =>
      have hmem : c.header.index ∈ (runFrames o d h initState fs).seen :=
        parsed_in_seen o d h fs initState hd' f hf c hp
      have hinv := recv_invariant o d h fs initState (by simp [initState])
        (by simp [initState]) (by simp [initState])
      have hcfg : (runFrames o d h initState fs).config ≠ none := by
        intro hn
        rw [hinv.2.2 hn] at hmem
        exact absurd hmem (List.not_mem_nil _)
      obtain ⟨cf, hcf⟩ := Option.ne_none_iff_exists'.mp hcfg
      exact pf_mem_id o d h _ f c cf hd' hp hmem hcf

/-- C7: a packet whose ESI was already seen is skipped without being fed
to the decoder (fed sequence and dedup set unchanged); the ESIs of the
packets fed to the decoder are pairwise distinct, so each distinct ESI
is fed at most once; and processing a packet stream concatenated with
itself leaves the receiver state — dedup set included — exactly as after
the single stream, so the dedup set tracks distinct ESIs, not
deliveries. -/
theorem esi_dedup (o : Nat × Nat → List Chunk → Option (List Nat))
    (d : List Nat → Except Err (List Nat)) (h : List Nat → List Nat)
    (fs : List (List Nat)) (s : RecvState) (f : List Nat) (c : Chunk)
    (hp : Chunk.from_bytes f = .ok c) (hm : c.header.index ∈ s.seen) :
    ((processFrame o d h s f).fed = s.fed ∧
     (processFrame o d h s f).seen = s.seen) ∧
    ((runFrames o d h initState fs).fed.map (fun ch => ch.header.index)).Nodup ∧
    runFrames o d h initState (fs ++ fs) = runFrames o d h initState fs := by
  refine ⟨?_, ?_, run_dup_absorb o d h fs⟩
  · unfold processFrame
    split
    · exact ⟨rfl, rfl⟩
    · simp only [hp]
      rw [if_pos hm]
      exact ⟨rfl, rfl⟩
  · have hinv := recv_invariant o d h fs initState (by simp [initState])
      (by simp [initState]) (by simp [initState])
    rw [hinv.2.1]
    exact List.nodup_reverse.mpr hinv.1

/-- C7 witness: the dedup equations at a concrete state holding ESI 0
and a concrete duplicate frame. -/
theorem esi_dedup_witness :
    ((processFrame (fun _ _ => none) (fun _ => .error .decompressFailed)
        (fun _ => []) ⟨some (12, 4), [0], [⟨⟨1, 12, 0, 4⟩, []⟩], none, none, false⟩
        (Chunk.to_bytes ⟨⟨1, 12, 0, 4⟩, []⟩)).fed = [⟨⟨1, 12, 0, 4⟩, []⟩] ∧
     (processFrame (fun _ _ => none) (fun _ => .error .decompressFailed)
        (fun _ => []) ⟨some (12, 4), [0], [⟨⟨1, 12, 0, 4⟩, []⟩], none, none, false⟩
        (Chunk.to_bytes ⟨⟨1, 12, 0, 4⟩, []⟩)).seen = [0]) ∧
    ((runFrames (fun _ _ => none) (fun _ => .error .decompressFailed)
        (fun _ => []) initState [Chunk.to_bytes ⟨⟨1, 12, 0, 4⟩, []⟩]).fed.map
          (fun ch => ch.header.index)).Nodup ∧
    runFrames (fun _ _ => none) (fun _ => .error .decompressFailed) (fun _ => [])
        initState ([Chunk.to_bytes ⟨⟨1, 12, 0, 4⟩, []⟩] ++
          [Chunk.to_bytes ⟨⟨1, 12, 0, 4⟩, []⟩]) =
      runFrames (fun _ _ => none) (fun _ => .error .decompressFailed) (fun _ => [])
        initState [Chunk.to_bytes ⟨⟨1, 12, 0, 4⟩, []⟩] :=
  esi_dedup (fun _ _ => none) (fun _ => .error .decompressFailed) (fun _ => [])
    [Chunk.to_bytes ⟨⟨1, 12, 0, 4⟩, []⟩]
    ⟨some (12, 4), [0], [⟨⟨1, 12, 0, 4⟩, []⟩], none, none, false⟩
    (Chunk.to_bytes ⟨⟨1, 12, 0, 4⟩, []⟩) ⟨⟨1, 12, 0, 4⟩, []⟩
    (by decide) (by decide)

/-- C6: whenever the erasure decoder returns a recovered block, the
receiver truncates that block to exactly `T` bytes — the transfer
length taken from the packet header — before handing it to
decompression and unpacking; this holds both for the streaming
`decode_from_gif` loop and for `reconstruct_raptorq`. -/
theorem truncate_to_transfer_length (o : Nat × Nat → List Chunk → Option (List Nat))
    (d : List Nat → Except Err (List Nat)) (h : List Nat → List Nat)
    (s : RecvState) (f : List Nat) (hd : s.done = false)
    (hdone : (processFrame o d h s f).done = true) :
    (∃ c b, Chunk.from_bytes f = .ok c ∧
      o (s.config.getD (c.header.total, c.header.packetSize)) (s.fed ++ [c]) =
        some b ∧
      (processFrame o d h s f).recovered = some (b.take c.header.total) ∧
      (processFrame o d h s f).output =
        some ((d (b.take c.header.total)).bind (unpack_data h)) ∧
      (b.take c.header.total).length = min c.header.total b.length) ∧
    ∀ (c0 : Chunk) (rest : List Chunk) (b : List Nat),
      feedUntil o (c0.header.total, c0.header.packetSize) [] (c0 :: rest) = some b →
      reconstruct_raptorq o d h (c0 :: rest) =
        (d (b.take c0.header.total)).bind (unpack_data h) := by
  constructor
  · obtain ⟨sc, ss, sfed, sr, so, sd⟩ := s
    simp only at hd
    subst hd
    cases hp : Chunk.from_bytes f with
    | error e =>
      unfold processFrame at hdone
      simp [hp] at hdone
    | ok c =>
      by_cases hm : c.header.index ∈ ss
      · unfold processFrame at hdone
        simp [hp, hm] at hdone
      · cases ho : o (Option.getD sc (c.header.total, c.header.packetSize))
            (sfed ++ [c]) with
        | none =>
          unfold processFrame at hdone
          simp [hp, hm, ho] at hdone
        | some b =>
          have hres : processFrame o d h ⟨sc, ss, sfed, sr, so, false⟩ f =
              ⟨some (Option.getD sc (c.header.total, c.header.packetSize)),
               c.header.index :: ss, sfed ++ [c],
               some (b.take c.header.total),
               some ((d (b.take c.header.total)).bind (unpack_data h)), true⟩ := by
            unfold processFrame
            simp [hp, hm, ho]
          exact ⟨c, b, rfl, ho, by rw [hres], by rw [hres], List.length_take _ _⟩
  · intro c0 rest b hfeed
    unfold reconstruct_raptorq
    simp only [hfeed]

/-- C6 witness: a concrete decoder success where the 6-byte recovered
block is truncated to the 4-byte transfer length before decompression
and unpacking. -/
theorem truncate_to_transfer_length_witness :
    (∃ c b, Chunk.from_bytes (Chunk.to_bytes ⟨⟨1, 4, 0, 4⟩, []⟩) = .ok c ∧
      (fun (_ : Nat × Nat) (_ : List Chunk) => some [1, 2, 3, 4, 5, 6])
          (initState.config.getD (c.header.total, c.header.packetSize))
          (initState.fed ++ [c]) = some b ∧
      (processFrame (fun _ _ => some [1, 2, 3, 4, 5, 6])
          (fun _ => .error .decompressFailed) (fun _ => []) initState
          (Chunk.to_bytes ⟨⟨1, 4, 0, 4⟩, []⟩)).recovered =
        some (b.take c.header.total) ∧
      (processFrame (fun _ _ => some [1, 2, 3, 4, 5, 6])
          (fun _ => .error .decompressFailed) (fun _ => []) initState
          (Chunk.to_bytes ⟨⟨1, 4, 0, 4⟩, []⟩)).output =
        some (((fun (_ : List Nat) => (.error .decompressFailed : Except Err (List Nat)))
            (b.take c.header.total)).bind (unpack_data (fun _ => []))) ∧
      (b.take c.header.total).length = min c.header.total b.length) ∧
    ∀ (c0 : Chunk) (rest : List Chunk) (b : List Nat),
      feedUntil (fun _ _ => some [1, 2, 3, 4, 5, 6])
          (c0.header.total, c0.header.packetSize) [] (c0 :: rest) = some b →
      reconstruct_raptorq (fun _ _ => some [1, 2, 3, 4, 5, 6])
          (fun _ => .error .decompressFailed) (fun _ => []) (c0 :: rest) =
        (((fun (_ : List Nat) => (.error .decompressFailed : Except Err (List Nat)))
            (b.take c0.header.total)).bind (unpack_data (fun _ => []))) :=
  truncate_to_transfer_length (fun _ _ => some [1, 2, 3, 4, 5, 6])
    (fun _ => .error .decompressFailed) (fun _ => []) initState
    (Chunk.to_bytes ⟨⟨1, 4, 0, 4⟩, []⟩) rfl (by decide)

/-- C3 witness: the round-trip at a concrete header and body. -/
theorem header_roundtrip_witness :
    Chunk.from_bytes (Chunk.to_bytes ⟨⟨1, 70000, 5, 1400⟩, [9, 8, 7]⟩) =
      .ok ⟨⟨1, 70000, 5, 1400⟩, [9, 8, 7]⟩ ∧
    (Chunk.to_bytes ⟨⟨1, 70000, 5, 1400⟩, [9, 8, 7]⟩).length = HEADER_SIZE + 3 ∧
    (Chunk.to_bytes ⟨⟨1, 70000, 5, 1400⟩, [9, 8, 7]⟩).drop HEADER_SIZE = [9, 8, 7] :=
  header_roundtrip ⟨1, 70000, 5, 1400⟩ [9, 8, 7] (by decide)

theorem mkChunks_length (C : List Nat) (ps : Nat)
    (encPkt : List Nat → Nat → Nat → List Nat) (total : Nat) :
    (mkChunks C ps encPkt total).length = total := by
  simp [mkChunks]

theorem mkChunks_packetSize (C : List Nat) (ps : Nat)
    (encPkt : List Nat → Nat → Nat → List Nat) (total : Nat) :
    ∀ c ∈ mkChunks C ps encPkt total, c.header.packetSize = ps := by
  intro c hc
  simp only [mkChunks, List.mem_map] at hc
  obtain ⟨i, _, rfl⟩ := hc
  rfl

theorem loop_ok (C : List Nat) (minSize step rNum rDen : Nat)
    (fit : List Nat → Except Err Bool) (b64 : List Nat → List Nat)
    (encPkt : List Nat → Nat → Nat → List Nat) :
    ∀ fuel current chunks eff,
      prepare_chunks_loop C minSize step rNum rDen fit b64 encPkt fuel current =
        some (.ok (chunks, eff)) →
      4 ≤ sel_packet_size eff ∧
      chunks = mkChunks C (sel_packet_size eff) encPkt
        (max (ceilDiv C.length (sel_packet_size eff) + 2)
          (ceilDiv (ceilDiv C.length (sel_packet_size eff) * rNum) rDen)) := by
  intro fuel
  induction fuel with
  | zero =>
    intro current chunks eff hok
    exact absurd hok (by simp [prepare_chunks_loop])
  | succ f ih =>
    intro current chunks eff hok
    unfold prepare_chunks_loop at hok
    by_cases h4 : even_floor ((current - HEADER_SIZE) % 2 ^ 16) < 4
    · rw [if_pos h4] at hok
      by_cases hcm : current ≤ minSize
      · rw [if_pos hcm] at hok
        simp at hok
      · rw [if_neg hcm] at hok
        exact ih _ chunks eff hok
    · rw [if_neg h4] at hok
      cases hfit : fit (b64 (Chunk.to_bytes
          (mkChunk C (even_floor ((current - HEADER_SIZE) % 2 ^ 16)) encPkt 0))) with
      | error e =>
        rw [hfit] at hok
        simp at hok
      | ok bv =>
        rw [hfit] at hok
        cases bv with
        | false =>
          by_cases hmc : minSize < current
          · simp only [if_pos hmc] at hok
            exact ih _ chunks eff hok
          · simp only [if_neg hmc] at hok
            simp at hok
        | true =>
          simp only [Option.some.injEq, Except.ok.injEq, Prod.mk.injEq] at hok
          obtain ⟨hchunks, heff⟩ := hok
          subst heff
          exact ⟨by unfold sel_packet_size; omega, hchunks.symm⟩

/-- C4: whenever the adaptive sizing succeeds, the sender emits exactly
`max (k + 2) ⌈k·r⌉` erasure packets, where `k = ⌈|C| / packet_size⌉`,
`r = rNum / rDen` is the redundancy factor, and `packet_size` is the
symbol size selected for the accepted envelope size (which is the one
written into every emitted packet header). -/
theorem packet_count (C : List Nat) (minSize step rNum rDen : Nat)
    (fit : List Nat → Except Err Bool) (b64 : List Nat → List Nat)
    (encPkt : List Nat → Nat → Nat → List Nat) (fuel current : Nat)
    (chunks : List Chunk) (eff : Nat)
    (hok : prepare_chunks_loop C minSize step rNum rDen fit b64 encPkt fuel current =
      some (.ok (chunks, eff))) :
    chunks.length =
      max (ceilDiv C.length (sel_packet_size eff) + 2)
        (ceilDiv (ceilDiv C.length (sel_packet_size eff) * rNum) rDen) ∧
    ∀ c ∈ chunks, c.header.packetSize = sel_packet_size eff := by
  obtain ⟨-, hchunks⟩ :=
    loop_ok C minSize step rNum rDen fit b64 encPkt fuel current chunks eff hok
  subst hchunks
  exact ⟨mkChunks_length _ _ _ _, mkChunks_packetSize _ _ _ _⟩

/-- C4 witness: a concrete successful sizing run emitting
`max (1 + 2) ⌈1 · 2⌉ = 3` packets. -/
theorem packet_count_witness :
    (mkChunks [9, 9, 9, 9, 9, 9, 9, 9, 9, 9] (sel_packet_size 100)
        (fun _ _ _ => [0]) 3).length =
      max (ceilDiv 10 (sel_packet_size 100) + 2)
        (ceilDiv (ceilDiv 10 (sel_packet_size 100) * 2) 1) ∧
    ∀ c ∈ mkChunks [9, 9, 9, 9, 9, 9, 9, 9, 9, 9] (sel_packet_size 100)
        (fun _ _ _ => [0]) 3, c.header.packetSize = sel_packet_size 100 := by
  have h := packet_count [9, 9, 9, 9, 9, 9, 9, 9, 9, 9] 50 20 2 1
    (fun _ => .ok true) id (fun _ _ _ => [0]) 5 100
    (mkChunks [9, 9, 9, 9, 9, 9, 9, 9, 9, 9] (sel_packet_size 100)
      (fun _ _ _ => [0]) 3) 100 (by decide)
  exact h

/-- C5: whenever the adaptive sizing succeeds, the selected symbol size
is even and at least 4, and so is the `packet_size` written into every
emitted packet header. -/
theorem packet_size_even (C : List Nat) (minSize step rNum rDen : Nat)
    (fit : List Nat → Except Err Bool) (b64 : List Nat → List Nat)
    (encPkt : List Nat → Nat → Nat → List Nat) (fuel current : Nat)
    (chunks : List Chunk) (eff : Nat)
    (hok : prepare_chunks_loop C minSize step rNum rDen fit b64 encPkt fuel current =
      some (.ok (chunks, eff))) :
    sel_packet_size eff % 2 = 0 ∧ 4 ≤ sel_packet_size eff ∧
    ∀ c ∈ chunks, c.header.packetSize % 2 = 0 ∧ 4 ≤ c.header.packetSize := by
  obtain ⟨h4, hchunks⟩ :=
    loop_ok C minSize step rNum rDen fit b64 encPkt fuel current chunks eff hok
  have heven : sel_packet_size eff % 2 = 0 := by
    unfold sel_packet_size even_floor
    omega
  refine ⟨heven, h4, ?_⟩
  intro c hc
  rw [mkChunks_packetSize _ _ _ _ c (hchunks ▸ hc)]
  exact ⟨heven, h4⟩

/-- C5 witness: evenness and the lower bound at a concrete successful
sizing run. -/
theorem packet_size_even_witness :
    sel_packet_size 100 % 2 = 0 ∧ 4 ≤ sel_packet_size 100 ∧
    ∀ c ∈ mkChunks [9, 9, 9, 9, 9, 9, 9, 9, 9, 9] (sel_packet_size 100)
        (fun _ _ _ => [0]) 3,
      c.header.packetSize % 2 = 0 ∧ 4 ≤ c.header.packetSize :=
  packet_size_even [9, 9, 9, 9, 9, 9, 9, 9, 9, 9] 50 20 2 1
    (fun _ => .ok true) id (fun _ _ _ => [0]) 5 100
    (mkChunks [9, 9, 9, 9, 9, 9, 9, 9, 9, 9] (sel_packet_size 100)
      (fun _ _ _ => [0]) 3) 100 (by decide)

/-- C9 (amended): when the fit predicate itself never errors, every
failure of the adaptive sizing — whether the even-floored packet size
fell below 4 with `current ≤ min_size`, or the probe at `min_size` did
not fit — produces one and the same error value, reporting only
`min_size`; the two failure conditions are not distinguishable to the
caller. -/
theorem sizing_single_error (C : List Nat) (minSize step rNum rDen : Nat)
    (fit : List Nat → Except Err Bool) (b64 : List Nat → List Nat)
    (encPkt : List Nat → Nat → Nat → List Nat)
    (hfit : ∀ t e, fit t ≠ .error e) :
    ∀ fuel current e,
      prepare_chunks_loop C minSize step rNum rDen fit b64 encPkt fuel current =
        some (.error e) →
      e = .tooLarge minSize := by
  intro fuel
  induction fuel with
  | zero =>
    intro current e herr
    exact absurd herr (by simp [prepare_chunks_loop])
  | succ f ih =>
    intro current e herr
    unfold prepare_chunks_loop at herr
    by_cases h4 : even_floor ((current - HEADER_SIZE) % 2 ^ 16) < 4
    · rw [if_pos h4] at herr
      by_cases hcm : current ≤ minSize
      · rw [if_pos hcm] at herr
        simp at herr
        exact herr.symm
      · rw [if_neg hcm] at herr
        exact ih _ e herr
    · rw [if_neg h4] at herr
      cases hfitv : fit (b64 (Chunk.to_bytes
          (mkChunk C (even_floor ((current - HEADER_SIZE) % 2 ^ 16)) encPkt 0))) with
      | error e2 => exact absurd hfitv (hfit _ e2)
      | ok bv =>
        rw [hfitv] at herr
        cases bv with
        | false =>
          by_cases hmc : minSize < current
          · simp only [if_pos hmc] at herr
            exact ih _ e herr
          · simp only [if_neg hmc] at herr
            simp at herr
            exact herr.symm
        | true => simp at herr

/-- C9 witness: with a total (never-erroring) fit predicate, a failing
concrete run reports the single `tooLarge` error carrying `min_size`. -/
theorem sizing_single_error_witness :
    Err.tooLarge 100 = Err.tooLarge 100 :=
  sizing_single_error [] 100 50 3 2 (fun _ => .ok false) id (fun _ _ _ => [])
    (fun _ _ => by simp) 5 14 (.tooLarge 100) (by decide)

/-- C9 counterexample: the run hitting the claim's `TooSmall` condition
(even-floored size below 4 at `current = 14 ≤ min_size = 100`) and the
run hitting the claim's `TooLarge` condition (the `min_size = 100`
probe rejected by the fit predicate) return the identical error value,
so the two failure kinds are not distinguishable to the caller. -/
theorem sizing_errors_counterexample :
    prepare_chunks_loop [] 100 50 3 2 (fun _ => .ok false) id (fun _ _ _ => [])
        5 14 = some (.error (.tooLarge 100)) ∧
    prepare_chunks_loop [] 100 50 3 2 (fun _ => .ok false) id (fun _ _ _ => [])
        5 100 = some (.error (.tooLarge 100)) := by
  decide

theorem loop_terminates (C : List Nat) (minSize step rNum rDen : Nat)
    (fit : List Nat → Except Err Bool) (b64 : List Nat → List Nat)
    (encPkt : List Nat → Nat → Nat → List Nat) (hstep : 1 ≤ step) :
    ∀ current fuel, current + 2 ≤ fuel →
      prepare_chunks_loop C minSize step rNum rDen fit b64 encPkt fuel current ≠
        none := by
  intro current
  induction current using Nat.strong_induction_on with
  | _ current ih =>
    intro fuel hfuel
    cases fuel with
    | zero => omega
    | succ f =>
      unfold prepare_chunks_loop
      by_cases h4 : even_floor ((current - HEADER_SIZE) % 2 ^ 16) < 4
      · rw [if_pos h4]
        by_cases hcm : current ≤ minSize
        · rw [if_pos hcm]
          simp
        · rw [if_neg hcm]
          exact ih (max minSize (current - step)) (by omega) f (by omega)
      · rw [if_neg h4]
        cases hfitv : fit (b64 (Chunk.to_bytes
            (mkChunk C (even_floor ((current - HEADER_SIZE) % 2 ^ 16)) encPkt 0))) with
        | error e => simp
        | ok bv =>
          cases bv with
          | false =>
            by_cases hmc : minSize < current
            · simp only [if_pos hmc]
              exact ih (max minSize (current - step)) (by omega) f (by omega)
            · simp only [if_neg hmc]
              simp
          | true => simp

/-- C10: with `reduction_step ≥ 1` the adaptive sizing loop always
terminates — `current + 2` iterations of fuel are never exhausted, the
loop returning packets or an error before that; with
`reduction_step = 0`, a start above `min_size` and a fit predicate that
always rejects, the loop never returns for any amount of fuel. -/
theorem sizing_loop_termination :
    (∀ (C : List Nat) (minSize step rNum rDen : Nat)
        (fit : List Nat → Except Err Bool) (b64 : List Nat → List Nat)
        (encPkt : List Nat → Nat → Nat → List Nat) (current fuel : Nat),
      1 ≤ step → current + 2 ≤ fuel →
      prepare_chunks_loop C minSize step rNum rDen fit b64 encPkt fuel current ≠
        none) ∧
    (∀ fuel,
      prepare_chunks_loop [] 10 0 1 1 (fun _ => .ok false) id (fun _ _ _ => [])
        fuel 20 = none) := by
  constructor
  · intro C minSize step rNum rDen fit b64 encPkt current fuel hstep hfuel
    exact loop_terminates C minSize step rNum rDen fit b64 encPkt hstep current
      fuel hfuel
  · intro fuel
    induction fuel with
    | zero => rfl
    | succ f ih =>
      show prepare_chunks_loop [] 10 0 1 1 (fun _ => .ok false) id
        (fun _ _ _ => []) f 20 = none
      exact ih

/-- C10 witness: termination at a concrete configuration with
`reduction_step = 1`. -/
theorem sizing_loop_termination_witness :
    prepare_chunks_loop [] 10 1 1 1 (fun _ => .ok false) id (fun _ _ _ => [])
        22 20 ≠ none :=
  sizing_loop_termination.1 [] 10 1 1 1 (fun _ => .ok false) id (fun _ _ _ => [])
    20 22 (by decide) (by decide)

end Cube
